import Mathlib

/-!
Verification of the gitup client (src/gitup.c) against its natural-language
specification.  The C functions are shallowly embedded in Lean: byte buffers
become `List Nat` (each element a byte value `< 256`), machine integers become
`Nat` with explicit `% 2^32` where 32-bit overflow matters, and fatal `err()` /
`errc()` exits become `Option`/`Except` failures.  Uninitialized or
out-of-bounds C memory reads (which the C performs unchecked) are modelled as
reading the byte 0; no control-flow decision in the embedded code depends on
such a value.
-/

namespace Gitup

/-! ## Hash legibility conversions (src/gitup.c lines 305-346) -/

/-- One lowercase hexadecimal digit, as produced by `snprintf "%02x"`:
values 0-9 render as ASCII '0'-'9' (48-57), values 10-15 as 'a'-'f' (97-102). -/
def hexChar (n : Nat) : Nat :=
  if n < 10 then 48 + n else 87 + n

/-- `legible_hash`: converts a binary SHA buffer into its lowercase, zero-padded
hexadecimal rendering, two digits per byte (`snprintf(&hash[x*2], 3, "%02x", byte)`).
The C fixes the input at 20 bytes; the embedding maps any byte list. -/
def legible_hash : List Nat → List Nat
  | [] => []
  | b :: rest => hexChar (b / 16) :: hexChar (b % 16) :: legible_hash rest

/-- The value of one hexadecimal character as computed by `illegible_hash`:
`c - (c > 58 ? 87 : 48)` (the C compares the ASCII code with 58, i.e. ';'). -/
def hexVal (c : Nat) : Nat :=
  c - (if 58 < c then 87 else 48)

/-- `illegible_hash`: converts a 40-character human-readable SHA into 20 binary
bytes via `16 * hexVal c0 + hexVal c1` per character pair. -/
def illegible_hash : List Nat → List Nat
  | c0 :: c1 :: rest => (16 * hexVal c0 + hexVal c1) :: illegible_hash rest
  | _ => []

/-- A byte that `legible_hash` can emit: a lowercase hexadecimal digit. -/
def isLowerHexDigit (c : Nat) : Prop :=
  (48 ≤ c ∧ c ≤ 57) ∨ (97 ≤ c ∧ c ≤ 102)

instance (c : Nat) : Decidable (isLowerHexDigit c) := by
  unfold isLowerHexDigit; infer_instance

/-! ## Decimal rendering used by `calculate_object_hash` (lines 657-693) -/

/-- Fueled helper for `digitExtra`; the fuel only bounds the recursion and is
always called with `fuel ≥ n`, which suffices since `n / 10 < n`. -/
def digitExtraGo : Nat → Nat → Nat
  | 0, _ => 0
  | fuel + 1, n => if n < 10 then 0 else digitExtraGo fuel (n / 10) + 1

/-- The number of iterations of the C loop `while ((digits /= 10) > 0) header_width++;`,
i.e. one less than the number of decimal digits of `n` (0 for `n < 10`). -/
def digitExtra (n : Nat) : Nat := digitExtraGo n n

/-- Fueled helper for `asciiDecimal`, with the same fuel convention. -/
def asciiDecimalGo : Nat → Nat → List Nat
  | 0, n => [48 + n]
  | fuel + 1, n => if n < 10 then [48 + n] else asciiDecimalGo fuel (n / 10) ++ [48 + n % 10]

/-- ASCII decimal rendering of a natural number, as `snprintf "%u"` produces. -/
def asciiDecimal (n : Nat) : List Nat := asciiDecimalGo n n

theorem digitExtraGo_irrel (f1 : Nat) : ∀ f2 n : Nat, n ≤ f1 → n ≤ f2 →
    digitExtraGo f1 n = digitExtraGo f2 n := by
  induction f1 using Nat.strong_induction_on with
  | _ f1 ih =>
    intro f2 n h1 h2
    match f1, f2 with
    | 0, 0 => rfl
    | 0, f2 + 1 =>
      interval_cases n
      rfl
    | f1 + 1, 0 =>
      interval_cases n
      rfl
    | f1 + 1, f2 + 1 =>
      simp only [digitExtraGo]
      by_cases h : n < 10
      · simp [h]
      · simp only [if_neg h]
        rw [ih f1 (by omega) f2 (n / 10) (by omega) (by omega)]

theorem digitExtra_rec (n : Nat) :
    digitExtra n = if n < 10 then 0 else digitExtra (n / 10) + 1 := by
  by_cases h : n < 10
  · unfold digitExtra
    match n, h with
    | 0, _ => rfl
    | m + 1, h => simp [digitExtraGo, h]
  · unfold digitExtra
    match n with
    | m + 1 =>
      simp only [digitExtraGo, if_neg h]
      rw [digitExtraGo_irrel m ((m + 1) / 10) ((m + 1) / 10) (by omega) (by omega)]

theorem asciiDecimalGo_irrel (f1 : Nat) : ∀ f2 n : Nat, n ≤ f1 → n ≤ f2 →
    asciiDecimalGo f1 n = asciiDecimalGo f2 n := by
  induction f1 using Nat.strong_induction_on with
  | _ f1 ih =>
    intro f2 n h1 h2
    match f1, f2 with
    | 0, 0 => rfl
    | 0, f2 + 1 =>
      interval_cases n
      rfl
    | f1 + 1, 0 =>
      interval_cases n
      rfl
    | f1 + 1, f2 + 1 =>
      simp only [asciiDecimalGo]
      by_cases h : n < 10
      · simp [h]
      · simp only [if_neg h]
        rw [ih f1 (by omega) f2 (n / 10) (by omega) (by omega)]

theorem asciiDecimal_rec (n : Nat) :
    asciiDecimal n = if n < 10 then [48 + n] else asciiDecimal (n / 10) ++ [48 + n % 10] := by
  by_cases h : n < 10
  · unfold asciiDecimal
    match n, h with
    | 0, _ => rfl
    | m + 1, h => simp [asciiDecimalGo, h]
  · unfold asciiDecimal
    match n with
    | m + 1 =>
      simp only [asciiDecimalGo, if_neg h]
      rw [asciiDecimalGo_irrel m ((m + 1) / 10) ((m + 1) / 10) (by omega) (by omega)]

theorem asciiDecimal_length (n : Nat) :
    (asciiDecimal n).length = digitExtra n + 1 := by
  induction n using Nat.strong_induction_on with
  | _ n ih =>
    rw [asciiDecimal_rec, digitExtra_rec]
    by_cases h : n < 10
    · simp [h]
    · have hlt : n / 10 < n := Nat.div_lt_self (by omega) (by omega)
      simp [h, ih _ hlt]

/-! ## SHA-1

Modelled from the spec: the source computes hashes with the external OpenSSL
`SHA1` routine, which is not part of this repository; the spec only names the
standard SHA-1 algorithm ("SHA-1 over the sequence ..."), so the standard
algorithm (FIPS 180) is implemented here on byte lists. -/

/-- 32-bit rotate left of a word already reduced `< 2^32`. -/
def rotl32 (n x : Nat) : Nat :=
  (((x <<< n) % 4294967296) ||| (x >>> (32 - n)))

/-- Big-endian 4-byte group to 32-bit words. -/
def bytesToWords : List Nat → List Nat
  | a :: b :: c :: d :: rest => (((a * 256 + b) * 256 + c) * 256 + d) :: bytesToWords rest
  | _ => []

/-- Extend the 16 message words by `fuel` more words (`w[i] = rotl1 (w[i-3] ^ w[i-8] ^ w[i-14] ^ w[i-16])`). -/
def sha1Extend (ws : List Nat) : Nat → List Nat
  | 0 => ws
  | fuel + 1 =>
      let n := ws.length
      let w := rotl32 1 ((ws.getD (n - 3) 0) ^^^ (ws.getD (n - 8) 0) ^^^
                          (ws.getD (n - 14) 0) ^^^ (ws.getD (n - 16) 0))
      sha1Extend (ws ++ [w]) fuel

/-- The round function and constant for round `i` of SHA-1. -/
def sha1FK (i b c d : Nat) : Nat × Nat :=
  if i < 20 then ((b &&& c) ||| ((b ^^^ 4294967295) &&& d), 1518500249)
  else if i < 40 then (b ^^^ c ^^^ d, 1859775393)
  else if i < 60 then ((b &&& c) ||| (b &&& d) ||| (c &&& d), 2400959708)
  else (b ^^^ c ^^^ d, 3395469782)

/-- One SHA-1 round. -/
def sha1Round (ws : List Nat) (st : Nat × Nat × Nat × Nat × Nat) (i : Nat) :
    Nat × Nat × Nat × Nat × Nat :=
  match st with
  | (a, b, c, d, e) =>
    let fk := sha1FK i b c d
    let temp := (rotl32 5 a + fk.1 + e + fk.2 + ws.getD i 0) % 4294967296
    (temp, a, rotl32 30 b, c, d)

/-- Compress one 64-byte chunk into the running state. -/
def sha1Compress (h : Nat × Nat × Nat × Nat × Nat) (chunk : List Nat) :
    Nat × Nat × Nat × Nat × Nat :=
  match h with
  | (h0, h1, h2, h3, h4) =>
    let ws := sha1Extend (bytesToWords chunk) 64
    let st := (List.range 80).foldl (sha1Round ws) (h0, h1, h2, h3, h4)
    match st with
    | (a, b, c, d, e) =>
      ((h0 + a) % 4294967296, (h1 + b) % 4294967296, (h2 + c) % 4294967296,
       (h3 + d) % 4294967296, (h4 + e) % 4294967296)

/-- Process the padded message 64 bytes at a time.  The `fuel` argument only
bounds the recursion; every call passes `msg.length`, which is at least the
number of 64-byte blocks, so the loop always ends by exhausting `msg`. -/
def sha1Blocks (h : Nat × Nat × Nat × Nat × Nat) (msg : List Nat) :
    Nat → Nat × Nat × Nat × Nat × Nat
  | 0 => h
  | fuel + 1 =>
    if 64 ≤ msg.length then
      sha1Blocks (sha1Compress h (msg.take 64)) (msg.drop 64) fuel
    else h

/-- Big-endian bytes of a 32-bit word. -/
def wordBytes (w : Nat) : List Nat :=
  [(w >>> 24) % 256, (w >>> 16) % 256, (w >>> 8) % 256, w % 256]

/-- SHA-1 padding: append 0x80, zeros to 56 mod 64, then the 64-bit big-endian
bit length. -/
def sha1Pad (msg : List Nat) : List Nat :=
  let ml := 8 * msg.length
  msg ++ [128] ++ List.replicate ((64 - (msg.length + 9) % 64) % 64) 0 ++
    [(ml >>> 56) % 256, (ml >>> 48) % 256, (ml >>> 40) % 256, (ml >>> 32) % 256] ++
    wordBytes ml

/-- SHA-1 digest (20 bytes) of a byte list. -/
def sha1 (msg : List Nat) : List Nat :=
  let st := sha1Blocks (1732584193, 4023233417, 2562383102, 271733878, 3285377520)
      (sha1Pad msg) (sha1Pad msg).length
  wordBytes st.1 ++ wordBytes st.2.1 ++ wordBytes st.2.2.1 ++
    wordBytes st.2.2.2.1 ++ wordBytes st.2.2.2.2

/-! ## `calculate_object_hash` (lines 657-693) -/

/-- The `types` table of `calculate_object_hash`, as ASCII byte lists:
`{ "", "commit", "tree", "blob", "tag", "", "ofs-delta", "ref-delta" }`. -/
def typeName (t : Nat) : List Nat :=
  [[], [99, 111, 109, 109, 105, 116], [116, 114, 101, 101], [98, 108, 111, 98],
   [116, 97, 103], [], [111, 102, 115, 45, 100, 101, 108, 116, 97],
   [114, 101, 102, 45, 100, 101, 108, 116, 97]].getD t []

/-- `calculate_object_hash`: prepends the git `"<type> <size>\0"` header and
returns the legible SHA-1.  The header is built exactly as the C does it:
`header_width = strlen(types[type]) + 3 + digitExtra size`, then
`snprintf(temp, header_width, "%s %u", ...)` (which keeps at most
`header_width - 1` characters and places a NUL after them), then the payload is
copied at offset `header_width`. -/
def calculate_object_hash (buffer : List Nat) (type : Nat) : List Nat :=
  let header_width := (typeName type).length + 3 + digitExtra buffer.length
  let formatted := typeName type ++ [32] ++ asciiDecimal buffer.length
  legible_hash (sha1 (formatted.take (header_width - 1) ++ [0] ++ buffer))

/-! ## Delta-stream integers (lines 2125-2172) -/

/-- The first loop of `unpack_delta_integer`: `do if (bits & mask) read_bytes++;
while (mask >>= 1);` with `mask` starting at 8, i.e. the number of set bits among
bits 0-3 of `bits`. -/
def udi_count (bits : Nat) : Nat :=
  (if bits &&& 8 ≠ 0 then 1 else 0) + (if bits &&& 4 ≠ 0 then 1 else 0) +
    (if bits &&& 2 ≠ 0 then 1 else 0) + (if bits &&& 1 ≠ 0 then 1 else 0)

/-- `unpack_delta_integer` (value only; the caller advances the position by
`udi_count bits`).  The C walks `mask` from 3 down to 0 and, for each set bit,
consumes the byte `data[position + --temp]` into position `mask * 8`, with
`temp` starting at `read_bytes`; the second loop is unrolled here exactly as
the fixed four iterations it performs. -/
def unpack_delta_integer (data : List Nat) (p bits : Nat) : Nat :=
  let rb := udi_count bits
  if rb = 0 then 0 else
    let t3 := rb
    let r3 := if bits &&& 8 ≠ 0 then (data.getD (p + t3 - 1) 0) <<< 24 else 0
    let t2 := if bits &&& 8 ≠ 0 then t3 - 1 else t3
    let r2 := if bits &&& 4 ≠ 0 then (data.getD (p + t2 - 1) 0) <<< 16 else 0
    let t1 := if bits &&& 4 ≠ 0 then t2 - 1 else t2
    let r1 := if bits &&& 2 ≠ 0 then (data.getD (p + t1 - 1) 0) <<< 8 else 0
    let t0 := if bits &&& 2 ≠ 0 then t1 - 1 else t1
    let r0 := if bits &&& 1 ≠ 0 then data.getD (p + t0 - 1) 0 else 0
    r3 + r2 + r1 + r0

/-- The spec's reading of the same integer: present bytes are read in stream
order and placed at the position of their selecting bit, byte 0 least
significant, absent bytes zero.  Returns (value, next position). -/
def spec_delta_integer (data : List Nat) (p bits : Nat) : Nat × Nat :=
  [0, 1, 2, 3].foldl
    (fun acc k =>
      if bits >>> k &&& 1 = 1 then (acc.1 + ((data.getD acc.2 0) <<< (8 * k)), acc.2 + 1)
      else acc)
    (0, p)

/-- `unpack_variable_length_integer`'s loop:
`do result += (data[*position] & 0x7F) << (7 * count++); while (data[(*position)++] & 0x80);`.
`result` is a `uint32_t`, hence the `% 2^32`.  Reading past the end of the
buffer yields the byte 0, whose continuation bit is clear, so the loop stops
there; the extra `p < data.length` conjunct only discharges termination and
never changes the result. -/
def uvli_loop (data : List Nat) (p count acc : Nat) : Nat × Nat :=
  let b := data.getD p 0
  let acc' := (acc + ((b &&& 127) <<< (7 * count))) % 4294967296
  if h : b &&& 128 ≠ 0 ∧ p < data.length then uvli_loop data (p + 1) (count + 1) acc'
  else (acc', p + 1)
termination_by data.length - p
decreasing_by omega

/-- `unpack_variable_length_integer`: returns (value, next position). -/
def unpack_variable_length_integer (data : List Nat) (p : Nat) : Nat × Nat :=
  uvli_loop data p 0 0

/-! ## The copy/insert interpreter of `apply_deltas` (lines 2255-2286) -/

/-- `len` bytes of `buf` starting at `off`; the C `memcpy` performs no bounds
check, so reads past the end are modelled as the byte 0. -/
def readBytes (buf : List Nat) (off len : Nat) : List Nat :=
  (List.range len).map (fun i => buf.getD (off + i) 0)

/-- The instruction loop of `apply_deltas` for one delta: interprets the
stream at `pos`, writing into the layer buffer at `newPos` (writes are
consecutive, so the written bytes are accumulated in `out`).  `copies` records
each decoded copy instruction as (offset, length).  `none` is the fatal
`apply_deltas: position overflow` exit (`new_position + length > new_file_size`). -/
def applyInstructions (delta merge : List Nat) (newSize : Nat) (pos newPos : Nat)
    (out : List Nat) (copies : List (Nat × Nat)) :
    Option (List Nat × List (Nat × Nat)) :=
  if _hpos : pos < delta.length then
    let instruction := delta.getD pos 0
    if instruction &&& 128 ≠ 0 then
      let length_bits := (instruction &&& 112) >>> 4
      let offset_bits := instruction &&& 15
      let offset := unpack_delta_integer delta (pos + 1) offset_bits
      let p2 := pos + 1 + udi_count offset_bits
      let length0 := unpack_delta_integer delta p2 length_bits
      let p3 := p2 + udi_count length_bits
      let length := if length0 = 0 then 65536 else length0
      if newPos + length > newSize then none
      else applyInstructions delta merge newSize p3 (newPos + length)
        (out ++ readBytes merge offset length) (copies ++ [(offset, length)])
    else
      let length := instruction
      if newPos + length > newSize then none
      else applyInstructions delta merge newSize (pos + 1 + length) (newPos + length)
        (out ++ readBytes delta (pos + 1) length) copies
  else some (out, copies)
termination_by delta.length - pos
decreasing_by all_goals omega

/-- Application of one delta to the current merge buffer: reads `old_size` and
`new_size` as variable-length integers, runs the instruction loop, and returns
(old_size, new_size, result, copies).  The result is the first `new_size` bytes
of the layer buffer; positions never written (possible when the instruction
stream ends early) are modelled as 0. -/
def apply_one_delta (deltaBuf merge : List Nat) :
    Option (Nat × Nat × List Nat × List (Nat × Nat)) :=
  let r1 := unpack_variable_length_integer deltaBuf 0
  let r2 := unpack_variable_length_integer deltaBuf r1.2
  (applyInstructions deltaBuf merge r2.1 r2.2 0 [] []).map
    (fun oc => (r1.1, r2.1, (oc.1 ++ List.replicate r2.1 0).take r2.1, oc.2))

/-! ## The object store (lines 229-243, 1875-1929)

`connection->object` / `connection->objects` become the insertion-ordered list
`objects`; the red-black tree `Objects` keyed by hash becomes the list `tree`
together with `rbFind`/`rbInsert`.  `RB_FIND` returns the node with the given
key; `RB_INSERT` of the BSD `<sys/tree.h>` macros aborts when a node with an
equal key is already present, leaving the tree unchanged. -/

/-- ASCII bytes of a string literal. -/
def asciiOf (s : String) : List Nat := s.toList.map Char.toNat

structure ObjectNode where
  hash : List Nat
  type : Nat
  index : Nat
  index_delta : Nat
  ref_delta_hash : Option (List Nat)
  pack_offset : Nat
  buffer : List Nat
deriving DecidableEq, Repr

/-- `RB_FIND(Tree_Objects, ...)`: the stored node whose hash equals `hash`. -/
def rbFind (tree : List ObjectNode) (hash : List Nat) : Option ObjectNode :=
  tree.find? (fun o => decide (o.hash = hash))

/-- `RB_INSERT(Tree_Objects, ...)`: inserts `node` unless a node with the same
hash is already present, in which case the tree is unchanged. -/
def rbInsert (tree : List ObjectNode) (node : ObjectNode) : List ObjectNode :=
  if (rbFind tree node.hash).isSome then tree else node :: tree

structure Store where
  objects : List ObjectNode
  tree : List ObjectNode
deriving DecidableEq, Repr

def emptyStore : Store := ⟨[], []⟩

/-- `store_object` (lines 1875-1929): computes the object hash; when the hash
already exists and repair mode is off, the insertion is discarded; otherwise a
new node (with `index = connection->objects`) is appended to the array, and
entered into the lookup tree only when `type < 6`.  A binary `ref_delta_hash`
argument is stored in legible form. -/
def store_object (repair : Bool) (s : Store) (type : Nat) (buffer : List Nat)
    (pack_offset index_delta : Nat) (ref_delta_hash : Option (List Nat)) : Store :=
  let hash := calculate_object_hash buffer type
  if (rbFind s.tree hash).isSome ∧ repair = false then s
  else
    let node : ObjectNode :=
      ⟨hash, type, s.objects.length, index_delta, ref_delta_hash.map legible_hash,
       pack_offset, buffer⟩
    { objects := s.objects ++ [node],
      tree := if type < 6 then rbInsert s.tree node else s.tree }

/-! ## `apply_deltas` (lines 2182-2320) -/

/-- The chain walk of `apply_deltas`: follow `index_delta` links while the
current node is an ofs-delta, recording each delta's array index in order
(outermost first).  The C trusts `index_delta` to point at an earlier entry and
its chain array to hold at most `BUFFER_UNIT_SMALL` indices; a cyclic or
dangling chain, which the C would make loop or read out of bounds, exhausts the
fuel and fails. -/
def chainWalk (objs : List ObjectNode) : Nat → ObjectNode → List Nat →
    Option (List Nat × ObjectNode)
  | 0, _, _ => none
  | fuel + 1, cur, acc =>
    if cur.type = 6 then
      match objs.get? cur.index_delta with
      | some nxt => chainWalk objs fuel nxt (acc ++ [cur.index])
      | none => none
    else some (acc, cur)

/-- The delta-application loop of `apply_deltas` (lines 2237-2306): the chain
indices are replayed innermost-first; each step applies one delta payload to
the current merge buffer. -/
def applyChainLoop (objs : List ObjectNode) : List Nat → List Nat → Option (List Nat)
  | merge, [] => some merge
  | merge, i :: rest =>
    match objs.get? i with
    | none => none
    | some d =>
      match apply_one_delta d.buffer merge with
      | none => none
      | some r => applyChainLoop objs r.2.2.1 rest

/-- One iteration of the outer loop of `apply_deltas`, for array index `o`:
skip non-deltas; walk the ofs-delta chain; for a ref-delta at its end, look the
base up by `ref_delta_hash` (the C's `load_object` returns immediately when the
hash is in the tree and otherwise loads a local file or exits fatally — the
local file system is not part of the model, so an absent base fails); apply the
chain to a copy of the base's buffer; store the result with the base's type. -/
def processDelta (repair : Bool) (s : Store) (o : Nat) : Option Store :=
  match s.objects.get? o with
  | none => none
  | some obj =>
    if obj.type < 6 then some s
    else
      match chainWalk s.objects (s.objects.length + 1) obj [] with
      | none => none
      | some (chain, last) =>
        let lc := if last.type = 7 then (last.ref_delta_hash.getD [], chain ++ [last.index])
                  else (last.hash, chain)
        match rbFind s.tree lc.1 with
        | none => none
        | some base =>
          match applyChainLoop s.objects base.buffer lc.2.reverse with
          | none => none
          | some merged => some (store_object repair s base.type merged 0 0 none)

/-- The outer loop of `apply_deltas`: `for (o = connection->objects - 1; o >= 0; o--)`.
`applyLoop r (n+1) s` processes index `n` and then the lower indices; the loop
bound is the object count at entry, so objects appended by the loop itself are
never revisited. -/
def applyLoop (repair : Bool) : Nat → Store → Option Store
  | 0, s => some s
  | o + 1, s =>
    match processDelta repair s o with
    | none => none
    | some s' => applyLoop repair o s'

/-- `apply_deltas` over the whole store. -/
def apply_deltas (repair : Bool) (s : Store) : Option Store :=
  applyLoop repair s.objects.length s

/-! ## Ofs-delta header decoding and base resolution (lines 2011-2026) -/

/-- The ofs-delta header loop of `unpack_objects`:
`do lookup_offset = (lookup_offset << 7) + (response[position] & 0x7F) + 1;
while (response[position++] & 0x80);` with `lookup_offset` a `uint32_t`.
As in `uvli_loop`, reading past the end yields 0 and the bound conjunct only
serves termination. -/
def ofs_loop (data : List Nat) (p acc : Nat) : Nat × Nat :=
  let b := data.getD p 0
  let acc' := ((acc <<< 7) + (b &&& 127) + 1) % 4294967296
  if h : b &&& 128 ≠ 0 ∧ p < data.length then ofs_loop data (p + 1) acc'
  else (acc', p + 1)
termination_by data.length - p
decreasing_by omega

/-- The decoded ofs-delta header at `p`: (lookup_offset, next position). -/
def ofs_delta_offset (data : List Nat) (p : Nat) : Nat × Nat := ofs_loop data p 0

/-- The pack offset the base must have: `pack_offset - lookup_offset + 1` in
32-bit arithmetic. -/
def ofs_base_target (pack_offset lookup_offset : Nat) : Nat :=
  (pack_offset + (4294967296 - lookup_offset) + 1) % 4294967296

/-- The scan `while (--index_delta > 0) if (... == ...->pack_offset) break;`
after the initial decrement: tests indices `i, i-1, ..., 1` and returns the
first (highest) whose `pack_offset` matches, or 0 when none does. -/
def scanDown (objs : List ObjectNode) (target : Nat) : Nat → Nat
  | 0 => 0
  | i + 1 =>
    match objs.get? (i + 1) with
    | some o => if o.pack_offset = target then i + 1 else scanDown objs target i
    | none => scanDown objs target i

/-- The full base search: `index_delta` starts at the object count and is
pre-decremented, so indices `count-1 .. 1` are examined; with an empty array
the loop leaves `index_delta = -1`.  The decoder then treats exactly the result
0 as fatal (`unpack_objects: cannot find ofs-delta base object`). -/
def find_ofs_base (objs : List ObjectNode) (target : Nat) : Int :=
  if objs.length = 0 then -1 else (scanDown objs target (objs.length - 1) : Int)

/-! ## `build_repair_command` (lines 1540-1589) -/

structure FileNode where
  mode : Nat
  path : List Nat
  hash : List Nat
deriving DecidableEq, Repr

/-- `ignore_file` (lines 355-365): true when some configured ignore entry is a
leading prefix of `path` (`strncmp(path, ignore[x], strlen(ignore[x])) == 0`). -/
def ignore_file (ignores : List (List Nat)) (path : List Nat) : Bool :=
  ignores.any (fun ig => decide (path.take ig.length = ig))

/-- One `"0032want <hash>\n"` line. -/
def wantLine (hash : List Nat) : List Nat :=
  asciiOf "0032want " ++ hash ++ asciiOf "\n"

/-- `RB_FIND(Tree_Local_Path, ...)`: the local file node with the given path. -/
def localFind (localList : List FileNode) (path : List Nat) : Option FileNode :=
  localList.find? (fun f => decide (f.path = path))

/-- The want-list accumulation of `build_repair_command`: one line per
previously-persisted path that is locally missing, or locally present with a
hash that differs in its first 40 characters and not matched by an ignore
entry (the ignore test sits inside the hash-mismatch conjunct only).  `remote`
is `Tree_Remote_Path` in its `RB_FOREACH` iteration order. -/
def repairWant (ignores : List (List Nat)) (localList : List FileNode) :
    List FileNode → List Nat
  | [] => []
  | f :: rest =>
    (match localFind localList f.path with
     | none => wantLine f.hash
     | some found =>
       if found.hash.take 40 ≠ f.hash.take 40 ∧ ignore_file ignores f.path = false
       then wantLine f.hash else []) ++ repairWant ignores localList rest

/-- `build_repair_command`: `.ok none` is the `return (NULL)` for an empty
want list, `.error ()` the fatal `E2BIG` exit for an oversized one, and
`.ok (some cmd)` the assembled fetch command. -/
def build_repair_command (ignores : List (List Nat)) (localList remote : List FileNode) :
    Except Unit (Option (List Nat)) :=
  let want := repairWant ignores localList remote
  if want.length = 0 then .ok none
  else if want.length > 3276800 then .error ()
  else .ok (some (asciiOf "0011command=fetch0001000dthin-pack000fno-progress000dofs-delta" ++
    want ++ asciiOf "000cdeepen 1" ++ asciiOf "0009done\n0000"))

/-! ## The manifest rewrite of `save_objects` (lines 2640-2667)

Only the file-system effects on the manifest path and its `.new` sibling are
modelled: a state holds the contents (if any) at the two paths, and the
procedure's syscalls become state transitions.  `save_objects` opens
`<path>.new` with `O_TRUNC`, writes the want hash and the tree blocks into it,
closes it, `remove()`s the manifest, and finally `rename()`s `<path>.new` onto
the manifest path. -/

structure ManifestFS where
  manifest : Option (List Nat)
  manifest_new : Option (List Nat)
deriving DecidableEq, Repr

def fsOpenTrunc (fs : ManifestFS) : ManifestFS :=
  { fs with manifest_new := some [] }

def fsWriteNew (fs : ManifestFS) (bytes : List Nat) : ManifestFS :=
  { fs with manifest_new := fs.manifest_new.map (· ++ bytes) }

def fsRemoveManifest (fs : ManifestFS) : ManifestFS :=
  { fs with manifest := none }

def fsRenameNewOverManifest (fs : ManifestFS) : ManifestFS :=
  { manifest := fs.manifest_new, manifest_new := none }

/-- The sequence of file-system states `save_objects` passes through while
replacing a manifest whose old contents are `old` with new contents `new`
(the two `write` calls and `process_tree`'s writes are grouped into one
transition; `close` does not change the modelled state). -/
def save_objects_manifest_trace (old new : List Nat) : List ManifestFS :=
  let s0 : ManifestFS := ⟨some old, none⟩
  let s1 := fsOpenTrunc s0
  let s2 := fsWriteNew s1 new
  let s3 := fsRemoveManifest s2
  let s4 := fsRenameNewOverManifest s3
  [s0, s1, s2, s3, s4]

/-! ## Helper lemmas -/

theorem hexVal_hexChar (n : Nat) (h : n < 16) : hexVal (hexChar n) = n := by
  interval_cases n <;> rfl

theorem hexChar_hexVal (c : Nat) (h : isLowerHexDigit c) : hexChar (hexVal c) = c := by
  rcases h with ⟨h1, h2⟩ | ⟨h1, h2⟩ <;> interval_cases c <;> rfl

theorem hexVal_lt (c : Nat) (h : isLowerHexDigit c) : hexVal c < 16 := by
  rcases h with ⟨h1, h2⟩ | ⟨h1, h2⟩ <;> interval_cases c <;> decide

theorem isLowerHexDigit_hexChar (n : Nat) (h : n < 16) : isLowerHexDigit (hexChar n) := by
  interval_cases n <;> decide

/-- Two-step list induction matching the shape of `illegible_hash`. -/
theorem pairRec {P : List Nat → Prop} (h0 : P []) (h1 : ∀ c, P [c])
    (h2 : ∀ c0 c1 rest, P rest → P (c0 :: c1 :: rest)) : ∀ l, P l
  | [] => h0
  | [c] => h1 c
  | c0 :: c1 :: rest => h2 c0 c1 rest (pairRec h0 h1 h2 rest)

theorem illegible_legible (b : List Nat) (hb : ∀ x ∈ b, x < 256) :
    illegible_hash (legible_hash b) = b := by
  induction b with
  | nil => rfl
  | cons x rest ih =>
    have hx : x < 256 := hb x (by simp)
    simp only [legible_hash, illegible_hash]
    rw [hexVal_hexChar (x / 16) (by omega), hexVal_hexChar (x % 16) (by omega)]
    rw [ih (fun y hy => hb y (by simp [hy]))]
    congr 1
    omega

theorem legible_illegible (h : List Nat) (heven : h.length % 2 = 0)
    (hhex : ∀ c ∈ h, isLowerHexDigit c) :
    legible_hash (illegible_hash h) = h := by
  induction h using pairRec with
  | h0 => rfl
  | h1 c => simp at heven
  | h2 c0 c1 rest ih =>
    have hrest : rest.length % 2 = 0 := by simp at heven; omega
    have hc0 : isLowerHexDigit c0 := hhex c0 (by simp)
    have hc1 : isLowerHexDigit c1 := hhex c1 (by simp)
    have hv0 : hexVal c0 < 16 := hexVal_lt c0 hc0
    have hv1 : hexVal c1 < 16 := hexVal_lt c1 hc1
    simp only [illegible_hash, legible_hash]
    have hdiv : (16 * hexVal c0 + hexVal c1) / 16 = hexVal c0 := by omega
    have hmod : (16 * hexVal c0 + hexVal c1) % 16 = hexVal c1 := by omega
    rw [hdiv, hmod, hexChar_hexVal c0 hc0, hexChar_hexVal c1 hc1]
    rw [ih hrest (fun y hy => hhex y (by simp [hy]))]

theorem legible_hash_length (l : List Nat) : (legible_hash l).length = 2 * l.length := by
  induction l with
  | nil => rfl
  | cons x rest ih => simp [legible_hash, ih]; omega

theorem legible_hash_hex (l : List Nat) (hl : ∀ x ∈ l, x < 256) :
    ∀ c ∈ legible_hash l, isLowerHexDigit c := by
  induction l with
  | nil => simp [legible_hash]
  | cons x rest ih =>
    have hx : x < 256 := hl x (by simp)
    intro c hc
    simp only [legible_hash, List.mem_cons] at hc
    rcases hc with rfl | rfl | hc
    · exact isLowerHexDigit_hexChar _ (by omega)
    · exact isLowerHexDigit_hexChar _ (by omega)
    · exact ih (fun y hy => hl y (by simp [hy])) c hc

theorem wordBytes_length (w : Nat) : (wordBytes w).length = 4 := rfl

theorem wordBytes_lt (w : Nat) : ∀ x ∈ wordBytes w, x < 256 := by
  intro x hx
  simp only [wordBytes, List.mem_cons, List.not_mem_nil, or_false] at hx
  rcases hx with rfl | rfl | rfl | rfl <;> exact Nat.mod_lt _ (by omega)

theorem sha1_length (msg : List Nat) : (sha1 msg).length = 20 := by
  simp [sha1, wordBytes]

theorem sha1_bytes_lt (msg : List Nat) : ∀ x ∈ sha1 msg, x < 256 := by
  intro x hx
  simp only [sha1, List.mem_append] at hx
  rcases hx with ((((hx | hx) | hx) | hx) | hx) <;> exact wordBytes_lt _ x hx

/-! ## Claim C8 -/

/-- C8: for every 20-byte binary buffer `b`, `illegible_hash (legible_hash b) = b`,
and for every 40-character lowercase hexadecimal string `h`,
`legible_hash (illegible_hash h) = h`. -/
theorem claim_C8_hash_round_trip :
    (∀ b : List Nat, b.length = 20 → (∀ x ∈ b, x < 256) →
      illegible_hash (legible_hash b) = b) ∧
    (∀ h : List Nat, h.length = 40 → (∀ c ∈ h, isLowerHexDigit c) →
      legible_hash (illegible_hash h) = h) :=
  ⟨fun b _ hb => illegible_legible b hb,
   fun h hlen hhex => legible_illegible h (by omega) hhex⟩

theorem claim_C8_hash_round_trip_witness :
    illegible_hash (legible_hash (List.replicate 20 171)) = List.replicate 20 171 ∧
    legible_hash (illegible_hash (legible_hash (List.replicate 20 171))) =
      legible_hash (List.replicate 20 171) :=
  ⟨claim_C8_hash_round_trip.1 _ (by decide) (by decide),
   claim_C8_hash_round_trip.2 _ (by decide) (by decide)⟩

/-! ## Claim C6 -/

/-- C6: for every payload buffer and plain object kind (1 commit, 2 tree,
3 blob, 4 tag), `calculate_object_hash` returns the SHA-1 of
`"<type_name> <payload_size>\0" ++ payload` — i.e. the C's truncating header
construction produces exactly that byte sequence — rendered as exactly 40
lowercase zero-padded hexadecimal characters. -/
theorem claim_C6_object_hash (buffer : List Nat) (type : Nat)
    (_ht : type ∈ [1, 2, 3, 4]) :
    calculate_object_hash buffer type =
      legible_hash (sha1 (typeName type ++ [32] ++ asciiDecimal buffer.length ++ [0] ++ buffer)) ∧
    (calculate_object_hash buffer type).length = 40 ∧
    (∀ c ∈ calculate_object_hash buffer type, isLowerHexDigit c) := by
  have hhdr : (typeName type ++ [32] ++ asciiDecimal buffer.length).take
      ((typeName type).length + 3 + digitExtra buffer.length - 1) =
      typeName type ++ [32] ++ asciiDecimal buffer.length := by
    have hl : (typeName type ++ [32] ++ asciiDecimal buffer.length).length =
        (typeName type).length + 3 + digitExtra buffer.length - 1 := by
      simp [asciiDecimal_length]; omega
    rw [← hl, List.take_length]
  refine ⟨?_, ?_, ?_⟩
  · simp only [calculate_object_hash]
    rw [hhdr]
  · simp only [calculate_object_hash]
    rw [legible_hash_length, sha1_length]
  · simp only [calculate_object_hash]
    exact legible_hash_hex _ (sha1_bytes_lt _)

theorem claim_C6_object_hash_witness :
    calculate_object_hash [104, 105] 3 =
      legible_hash (sha1 (typeName 3 ++ [32] ++
        asciiDecimal ([104, 105] : List Nat).length ++ [0] ++ [104, 105])) ∧
    (calculate_object_hash [104, 105] 3).length = 40 ∧
    (∀ c ∈ calculate_object_hash [104, 105] 3, isLowerHexDigit c) :=
  claim_C6_object_hash [104, 105] 3 (by decide)

/-! ## Helper lemmas for the delta instruction stream -/

theorem and127_of_lt {i : Nat} (h : i < 128) : i &&& 127 = i := by
  have h2 : ∀ j : Fin 128, (j : Nat) &&& 127 = (j : Nat) := by decide
  simpa using h2 ⟨i, h⟩

set_option maxRecDepth 4096 in
theorem and128_lt {i : Nat} (h : i < 256) : (i &&& 128 = 0 ↔ i < 128) := by
  have h2 : ∀ j : Fin 256, ((j : Nat) &&& 128 = 0 ↔ (j : Nat) < 128) := by decide
  simpa using h2 ⟨i, h⟩

theorem readBytes_length (buf : List Nat) (off len : Nat) :
    (readBytes buf off len).length = len := by simp [readBytes]

theorem readBytes_eq (buf : List Nat) (off len : Nat) (h : off + len ≤ buf.length) :
    readBytes buf off len = (buf.drop off).take len := by
  apply List.ext_getElem
  · simp [readBytes]; omega
  · intro i h1 h2
    have hi : i < len := by simpa [readBytes] using h1
    simp only [readBytes, List.getElem_map, List.getElem_range, List.getElem_take,
      List.getElem_drop]
    exact List.getD_eq_getElem buf 0 (by omega)

theorem udi_bits_lt (i : Nat) : i &&& 15 < 16 ∧ (i &&& 112) >>> 4 < 16 := by
  constructor
  · have := Nat.and_le_right (n := i) (m := 15); omega
  · have h1 := Nat.and_le_right (n := i) (m := 112)
    have h2 : (i &&& 112) >>> 4 = (i &&& 112) / 16 := by
      rw [Nat.shiftRight_eq_div_pow]
    omega

set_option maxHeartbeats 1000000 in
theorem udi_eq_spec (data : List Nat) (p bits : Nat) (hb : bits < 16) :
    unpack_delta_integer data p bits = (spec_delta_integer data p bits).1 ∧
    (spec_delta_integer data p bits).2 = p + udi_count bits := by
  interval_cases bits <;>
    constructor <;>
      simp +decide [unpack_delta_integer, spec_delta_integer, udi_count] <;> ring

theorem applyInstructions_copy (delta merge : List Nat) (newSize pos newPos : Nat)
    (out : List Nat) (copies : List (Nat × Nat)) (h1 : pos < delta.length)
    (h2 : delta.getD pos 0 &&& 128 ≠ 0) :
    applyInstructions delta merge newSize pos newPos out copies =
      (let i := delta.getD pos 0
       let offs := spec_delta_integer delta (pos + 1) (i &&& 15)
       let lens := spec_delta_integer delta offs.2 ((i &&& 112) >>> 4)
       let len := if lens.1 = 0 then 65536 else lens.1
       if newPos + len > newSize then none
       else applyInstructions delta merge newSize lens.2 (newPos + len)
         (out ++ readBytes merge offs.1 len) (copies ++ [(offs.1, len)])) := by
  rw [applyInstructions]
  rw [dif_pos h1]
  have hoff := udi_eq_spec delta (pos + 1) (delta.getD pos 0 &&& 15) (udi_bits_lt _).1
  have hlen := udi_eq_spec delta (spec_delta_integer delta (pos + 1) (delta.getD pos 0 &&& 15)).2
    ((delta.getD pos 0 &&& 112) >>> 4) (udi_bits_lt _).2
  simp only [hoff.1, ← hoff.2, hlen.1, ← hlen.2]
  rw [if_pos h2]

theorem applyInstructions_insert (delta merge : List Nat) (newSize pos newPos : Nat)
    (out : List Nat) (copies : List (Nat × Nat)) (h1 : pos < delta.length)
    (hbytes : ∀ x ∈ delta, x < 256) (h2 : delta.getD pos 0 &&& 128 = 0)
    (h3 : pos + 1 + (delta.getD pos 0 &&& 127) ≤ delta.length) :
    applyInstructions delta merge newSize pos newPos out copies =
      (let len := delta.getD pos 0 &&& 127
       if newPos + len > newSize then none
       else applyInstructions delta merge newSize (pos + 1 + len) (newPos + len)
         (out ++ (delta.drop (pos + 1)).take len) copies) := by
  have hlt : delta.getD pos 0 < 256 := by
    rw [List.getD_eq_getElem _ _ h1]
    exact hbytes _ (List.getElem_mem h1)
  have h128 : delta.getD pos 0 < 128 := (and128_lt hlt).1 h2
  have h127 : delta.getD pos 0 &&& 127 = delta.getD pos 0 := and127_of_lt h128
  rw [applyInstructions, dif_pos h1, if_neg (not_not_intro h2)]
  simp only [h127]
  rw [readBytes_eq delta (pos + 1) (delta.getD pos 0) (by omega)]

/-! ## Claim C3 -/

/-- C3: for a copy instruction byte (top bit set), bits 0-3 select which of 4
offset bytes follow and bits 4-6 which of 3 length bytes follow, absent bytes
are zero, present bytes are read in stream order with byte 0 least significant
(`unpack_delta_integer` agrees with that reading and consumes exactly that many
bytes), and a decoded length of 0 becomes 65536; for an insert byte (top bit
clear), the low 7 bits give the count of following delta bytes copied verbatim
to the output. -/
theorem claim_C3_copy_insert_decoding :
    (∀ (data : List Nat) (p bits : Nat), bits < 16 →
      unpack_delta_integer data p bits = (spec_delta_integer data p bits).1 ∧
      (spec_delta_integer data p bits).2 = p + udi_count bits) ∧
    (∀ (delta merge : List Nat) (newSize pos newPos : Nat) (out : List Nat)
      (copies : List (Nat × Nat)), pos < delta.length →
      delta.getD pos 0 &&& 128 ≠ 0 →
      applyInstructions delta merge newSize pos newPos out copies =
        (let i := delta.getD pos 0
         let offs := spec_delta_integer delta (pos + 1) (i &&& 15)
         let lens := spec_delta_integer delta offs.2 ((i &&& 112) >>> 4)
         let len := if lens.1 = 0 then 65536 else lens.1
         if newPos + len > newSize then none
         else applyInstructions delta merge newSize lens.2 (newPos + len)
           (out ++ readBytes merge offs.1 len) (copies ++ [(offs.1, len)]))) ∧
    (∀ (delta merge : List Nat) (newSize pos newPos : Nat) (out : List Nat)
      (copies : List (Nat × Nat)), pos < delta.length →
      (∀ x ∈ delta, x < 256) → delta.getD pos 0 &&& 128 = 0 →
      pos + 1 + (delta.getD pos 0 &&& 127) ≤ delta.length →
      applyInstructions delta merge newSize pos newPos out copies =
        (let len := delta.getD pos 0 &&& 127
         if newPos + len > newSize then none
         else applyInstructions delta merge newSize (pos + 1 + len) (newPos + len)
           (out ++ (delta.drop (pos + 1)).take len) copies)) :=
  ⟨udi_eq_spec,
   fun delta merge newSize pos newPos out copies h1 h2 =>
     applyInstructions_copy delta merge newSize pos newPos out copies h1 h2,
   fun delta merge newSize pos newPos out copies h1 hb h2 h3 =>
     applyInstructions_insert delta merge newSize pos newPos out copies h1 hb h2 h3⟩

theorem claim_C3_copy_insert_decoding_witness :
    (unpack_delta_integer [5, 6] 0 5 = (spec_delta_integer [5, 6] 0 5).1 ∧
      (spec_delta_integer [5, 6] 0 5).2 = 0 + udi_count 5) ∧
    (applyInstructions [1, 1, 145, 5, 1] [7] 1 2 0 [] [] =
      (let i := ([1, 1, 145, 5, 1] : List Nat).getD 2 0
       let offs := spec_delta_integer [1, 1, 145, 5, 1] (2 + 1) (i &&& 15)
       let lens := spec_delta_integer [1, 1, 145, 5, 1] offs.2 ((i &&& 112) >>> 4)
       let len := if lens.1 = 0 then 65536 else lens.1
       if 0 + len > 1 then none
       else applyInstructions [1, 1, 145, 5, 1] [7] 1 lens.2 (0 + len)
         ([] ++ readBytes [7] offs.1 len) ([] ++ [(offs.1, len)]))) ∧
    (applyInstructions [1, 1, 2, 65, 66] [7] 2 2 0 [] [] =
      (let len := ([1, 1, 2, 65, 66] : List Nat).getD 2 0 &&& 127
       if 0 + len > 2 then none
       else applyInstructions [1, 1, 2, 65, 66] [7] 2 (2 + 1 + len) (0 + len)
         ([] ++ (([1, 1, 2, 65, 66] : List Nat).drop (2 + 1)).take len) [])) :=
  ⟨claim_C3_copy_insert_decoding.1 [5, 6] 0 5 (by decide),
   claim_C3_copy_insert_decoding.2.1 [1, 1, 145, 5, 1] [7] 1 2 0 [] [] (by decide) (by decide),
   claim_C3_copy_insert_decoding.2.2 [1, 1, 2, 65, 66] [7] 2 2 0 [] [] (by decide) (by decide)
     (by decide) (by decide)⟩

/-! ## Claim C1 -/

/-- C1 is refuted by this evaluation: the delta engine accepts the delta
`[1, 1, 145, 5, 1]` (old size 1, new size 1, one copy instruction with
offset 5 and length 1) against the one-byte merge buffer `[7]` — it applies
the delta without any fatal error, returning a result and the decoded copy
`(5, 1)` — although `offset + length = 6` exceeds the merge buffer's size 1:
the code checks only the write bound `new_position + length > new_file_size`
(line 2277) and never bounds the copy's read from the merge buffer
(lines 2264-2265, 2284). -/
theorem claim_C1_copy_bound_unchecked :
    apply_one_delta [1, 1, 145, 5, 1] [7] = some (1, 1, [0], [(5, 1)]) ∧
    ([7] : List Nat).length < 5 + 1 := by
  constructor
  · simp +decide [apply_one_delta, unpack_variable_length_integer, uvli_loop,
      applyInstructions, unpack_delta_integer, udi_count, readBytes, List.range_succ]
  · decide

/-! ## Claim C7 -/

/-- C7 is false as stated: between `remove(manifest)` and
`rename(manifest.new, manifest)` (lines 2659-2664) no manifest at all exists
at the manifest path — the third intermediate state has `manifest = none`. -/
theorem claim_C7_manifest_gap :
    ¬ ∀ s ∈ save_objects_manifest_trace [1] [2],
        s.manifest = some [1] ∨ s.manifest = some [2] := by decide

/-- C7 (amended): `save_objects` stages the new manifest contents in the
sibling file `<path>.new` and then moves it over the manifest path, but not
atomically: it first `remove`s the old manifest and only then `rename`s, so
the trace passes through exactly one state in which no manifest exists at the
manifest path (while the complete new manifest exists at `<path>.new`); at
every other point the complete old or the complete new manifest is at the
manifest path. -/
theorem claim_C7_manifest_replacement (old new : List Nat) :
    save_objects_manifest_trace old new =
      [⟨some old, none⟩, ⟨some old, some []⟩, ⟨some old, some new⟩,
       ⟨none, some new⟩, ⟨some new, none⟩] ∧
    ∀ s ∈ save_objects_manifest_trace old new,
      s.manifest = some old ∨ s.manifest = some new ∨
        (s.manifest = none ∧ s.manifest_new = some new) := by
  refine ⟨rfl, ?_⟩
  intro s hs
  simp only [save_objects_manifest_trace, fsOpenTrunc, fsWriteNew, fsRemoveManifest,
    fsRenameNewOverManifest, Option.map_some, List.nil_append, List.mem_cons,
    List.not_mem_nil, or_false] at hs
  rcases hs with rfl | rfl | rfl | rfl | rfl <;> simp

theorem claim_C7_manifest_replacement_witness :
    save_objects_manifest_trace [3] [4, 5] =
      [⟨some [3], none⟩, ⟨some [3], some []⟩, ⟨some [3], some [4, 5]⟩,
       ⟨none, some [4, 5]⟩, ⟨some [4, 5], none⟩] ∧
    ∀ s ∈ save_objects_manifest_trace [3] [4, 5],
      s.manifest = some [3] ∨ s.manifest = some [4, 5] ∨
        (s.manifest = none ∧ s.manifest_new = some [4, 5]) :=
  claim_C7_manifest_replacement [3] [4, 5]

/-! ## Claim C9 -/

theorem repairWant_eq_filter (ignores : List (List Nat)) (localList : List FileNode) :
    ∀ remote : List FileNode,
      repairWant ignores localList remote =
        (remote.filter (fun f =>
          match localFind localList f.path with
          | none => true
          | some found => decide (found.hash.take 40 ≠ f.hash.take 40) &&
              !ignore_file ignores f.path)).flatMap (fun f => wantLine f.hash)
  | [] => rfl
  | f :: rest => by
    rw [repairWant]
    rw [repairWant_eq_filter ignores localList rest]
    cases hf : localFind localList f.path with
    | none => simp [List.filter_cons, hf]
    | some found =>
      by_cases hmatch : found.hash.take 40 ≠ f.hash.take 40 ∧
          ignore_file ignores f.path = false
      · simp [List.filter_cons, hf, if_pos hmatch, hmatch.1, hmatch.2]
      · have hcond : (decide (found.hash.take 40 ≠ f.hash.take 40) &&
            !ignore_file ignores f.path) = false := by
          by_cases hig : ignore_file ignores f.path
          · simp [hig]
          · have heq : found.hash.take 40 = f.hash.take 40 := by
              by_contra hne
              exact hmatch ⟨hne, by simpa using hig⟩
            simp [heq]
        simp [List.filter_cons, hf, hcond, hmatch]

/-- C9 is false as stated: the ignore test is applied only to paths that are
locally present with a mismatched hash.  A previously-persisted path that is
locally missing produces a `want` line even when it matches an ignore entry,
so the repair command is not "one line per missing or hash-mismatched
non-ignored path": here the single remote path is ignored and missing, yet a
command with its want line is returned (under the claim the want list would
be empty and no command would be returned). -/
theorem claim_C9_ignored_missing_still_wanted :
    ignore_file [[105]] [105, 47, 97] = true ∧
    localFind [] [105, 47, 97] = none ∧
    build_repair_command [[105]] [] [⟨420, [105, 47, 97], [104, 104]⟩] =
      .ok (some (asciiOf "0011command=fetch0001000dthin-pack000fno-progress000dofs-delta" ++
        wantLine [104, 104] ++ asciiOf "000cdeepen 1" ++ asciiOf "0009done\n0000")) :=
  ⟨by decide, by decide, rfl⟩

/-- C9 (amended): the want list holds one `"0032want <hash>\n"` line per
persisted path that is locally missing (regardless of the ignore list) or
locally present with a different hash and not ignored; `build_repair_command`
fails fatally with the `Repair` error kind iff that aggregate list exceeds
3,276,800 bytes; with a non-empty list under the limit it returns a fetch
command containing exactly those want lines, and with an empty list it
returns no command. -/
theorem claim_C9_repair_command (ignores : List (List Nat))
    (localList remote : List FileNode) :
    (build_repair_command ignores localList remote = .error () ↔
      3276800 < (repairWant ignores localList remote).length) ∧
    (build_repair_command ignores localList remote = .ok none ↔
      repairWant ignores localList remote = []) ∧
    (repairWant ignores localList remote ≠ [] →
      (repairWant ignores localList remote).length ≤ 3276800 →
      build_repair_command ignores localList remote =
        .ok (some (asciiOf "0011command=fetch0001000dthin-pack000fno-progress000dofs-delta" ++
          repairWant ignores localList remote ++ asciiOf "000cdeepen 1" ++
          asciiOf "0009done\n0000"))) ∧
    repairWant ignores localList remote =
      (remote.filter (fun f =>
        match localFind localList f.path with
        | none => true
        | some found => decide (found.hash.take 40 ≠ f.hash.take 40) &&
            !ignore_file ignores f.path)).flatMap (fun f => wantLine f.hash) := by
  refine ⟨?_, ?_, ?_, repairWant_eq_filter ignores localList remote⟩ <;>
    · simp only [build_repair_command]
      split_ifs with h1 h2 <;>
        simp_all [List.length_eq_zero]

theorem claim_C9_repair_command_witness :
    build_repair_command [] [] [⟨420, [97], [104, 104]⟩] =
      .ok (some (asciiOf "0011command=fetch0001000dthin-pack000fno-progress000dofs-delta" ++
        repairWant [] [] [⟨420, [97], [104, 104]⟩] ++ asciiOf "000cdeepen 1" ++
        asciiOf "0009done\n0000")) :=
  (claim_C9_repair_command [] [] [⟨420, [97], [104, 104]⟩]).2.2.1 (by decide) (by decide)

/-! ## Object-store lemmas -/

theorem rbFind_mem {tree : List ObjectNode} {hsh : List Nat} {o : ObjectNode}
    (h : rbFind tree hsh = some o) : o ∈ tree :=
  List.mem_of_find?_eq_some h

theorem store_object_tree_mem (repair : Bool) (s : Store) (type : Nat) (buffer : List Nat)
    (pack_offset index_delta : Nat) (rdh : Option (List Nat)) :
    ∀ o ∈ (store_object repair s type buffer pack_offset index_delta rdh).tree,
      o ∈ s.tree ∨ o.type < 6 := by
  intro o ho
  simp only [store_object] at ho
  split at ho
  · exact Or.inl ho
  · by_cases ht : type < 6
    · simp only [if_pos ht, rbInsert] at ho
      split at ho
      · exact Or.inl ho
      · rcases List.mem_cons.mp ho with rfl | h2
        · exact Or.inr ht
        · exact Or.inl h2
    · rw [if_neg ht] at ho
      exact Or.inl ho

theorem store_object_objects_cases (repair : Bool) (s : Store) (type : Nat)
    (buffer : List Nat) (pack_offset index_delta : Nat) (rdh : Option (List Nat)) :
    (store_object repair s type buffer pack_offset index_delta rdh).objects = s.objects ∨
    (store_object repair s type buffer pack_offset index_delta rdh).objects =
      s.objects ++ [⟨calculate_object_hash buffer type, type, s.objects.length,
        index_delta, rdh.map legible_hash, pack_offset, buffer⟩] := by
  simp only [store_object]
  split
  · exact Or.inl rfl
  · exact Or.inr rfl

theorem processDelta_cases (repair : Bool) (s : Store) (o : Nat) {s' : Store}
    (h : processDelta repair s o = some s') :
    s' = s ∨ ∃ (base : ObjectNode) (hsh merged : _),
      rbFind s.tree hsh = some base ∧
      s' = store_object repair s base.type merged 0 0 none := by
  unfold processDelta at h
  split at h
  · exact absurd h (by simp)
  split at h
  · exact Or.inl (Option.some.inj h).symm
  split at h
  · exact absurd h (by simp)
  all_goals
    dsimp only at h
    split at h
    · exact absurd h (by simp)
    rename_i base hfind
    split at h
    · exact absurd h (by simp)
    rename_i merged happ
    exact Or.inr ⟨base, _, merged, hfind, (Option.some.inj h).symm⟩

theorem store_object_treeOK (repair : Bool) (s : Store) (type : Nat) (buffer : List Nat)
    (pack_offset index_delta : Nat) (rdh : Option (List Nat))
    (hT : ∀ o ∈ s.tree, o.type < 6) :
    ∀ o ∈ (store_object repair s type buffer pack_offset index_delta rdh).tree,
      o.type < 6 := by
  intro o ho
  rcases store_object_tree_mem repair s type buffer pack_offset index_delta rdh o ho with
    hm | hlt
  · exact hT o hm
  · exact hlt

theorem applyLoop_spec (repair : Bool) : ∀ (n : Nat) (s s' : Store),
    (∀ o ∈ s.tree, o.type < 6) → applyLoop repair n s = some s' →
    (∀ o ∈ s'.tree, o.type < 6) ∧
      ∃ tl, s'.objects = s.objects ++ tl ∧ ∀ o ∈ tl, o.type < 6 := by
  intro n
  induction n with
  | zero =>
    intro s s' hT h
    rw [applyLoop] at h
    cases h
    exact ⟨hT, [], by simp, by simp⟩
  | succ n ih =>
    intro s s' hT h
    rw [applyLoop] at h
    cases hp : processDelta repair s n with
    | none => rw [hp] at h; exact absurd h (by simp)
    | some s1 =>
      rw [hp] at h
      rcases processDelta_cases repair s n hp with heq | ⟨base, hsh, merged, hfind, heq⟩
      · rw [← heq] at hT ⊢
        exact ih s1 s' hT h
      · rw [heq] at h
        have hbase : base.type < 6 := hT base (rbFind_mem hfind)
        have hT1 := store_object_treeOK repair s base.type merged 0 0 none hT
        obtain ⟨hT', tl2, htl2, htl2lt⟩ := ih _ s' hT1 h
        rcases store_object_objects_cases repair s base.type merged 0 0 none with
          heq | heq
        · exact ⟨hT', tl2, by rw [htl2, heq], htl2lt⟩
        · refine ⟨hT', ⟨calculate_object_hash merged base.type, base.type, s.objects.length,
            0, none, 0, merged⟩ :: tl2, ?_, ?_⟩
          · rw [htl2, heq]
            simp
          · intro o ho
            rcases List.mem_cons.mp ho with rfl | hm
            · exact hbase
            · exact htl2lt o hm

/-! ## Claim C5 -/

set_option maxRecDepth 100000 in
set_option maxHeartbeats 4000000 in
/-- C5 is false as stated for repair mode: storing the same content twice with
`repair` on appends a second node to the insertion-order array (indices 0 and 1,
here distinguishable by their pack offsets 7 and 8), but `RB_INSERT` aborts on
the duplicate key, so a subsequent lookup by that hash still returns the
earlier instance (index 0, pack offset 7), not the later one. -/
theorem claim_C5_repair_lookup_returns_earlier :
    ((store_object true (store_object true emptyStore 3 [97] 7 0 none) 3 [97] 8 0 none).objects.map
        (fun o => (o.index, o.pack_offset))) = [(0, 7), (1, 8)] ∧
    (rbFind (store_object true (store_object true emptyStore 3 [97] 7 0 none) 3 [97] 8 0 none).tree
        (calculate_object_hash [97] 3)).map (fun o => (o.index, o.pack_offset)) =
      some (0, 7) := by
  constructor <;> simp [store_object, emptyStore, rbFind, rbInsert, List.find?]

/-- C5 (amended): when an object whose hash is already in the lookup tree is
inserted, in normal mode the insertion is silently discarded and the store is
unchanged; in repair mode the later instance is appended to the
insertion-order array, but `RB_INSERT` aborts on the duplicate key, so the
hash-keyed index is unchanged and a subsequent lookup by that hash still
returns the earlier instance (whose hash — hence content — is identical). -/
theorem claim_C5_duplicate_store (repair : Bool) (s : Store) (type : Nat)
    (buffer : List Nat) (pack_offset index_delta : Nat) (rdh : Option (List Nat))
    (prev : ObjectNode)
    (hdup : rbFind s.tree (calculate_object_hash buffer type) = some prev) :
    (repair = false →
      store_object repair s type buffer pack_offset index_delta rdh = s) ∧
    (repair = true →
      (store_object repair s type buffer pack_offset index_delta rdh).objects =
        s.objects ++ [⟨calculate_object_hash buffer type, type, s.objects.length,
          index_delta, rdh.map legible_hash, pack_offset, buffer⟩] ∧
      (store_object repair s type buffer pack_offset index_delta rdh).tree = s.tree ∧
      rbFind (store_object repair s type buffer pack_offset index_delta rdh).tree
        (calculate_object_hash buffer type) = some prev) := by
  constructor
  · intro hr
    subst hr
    simp only [store_object]
    rw [if_pos ⟨by rw [hdup]; rfl, trivial⟩]
  · intro hr
    subst hr
    simp only [store_object]
    rw [if_neg (by simp)]
    have htree : (if type < 6
        then rbInsert s.tree ⟨calculate_object_hash buffer type, type, s.objects.length,
          index_delta, rdh.map legible_hash, pack_offset, buffer⟩
        else s.tree) = s.tree := by
      by_cases ht : type < 6
      · simp [ht, rbInsert, hdup]
      · rw [if_neg ht]
    exact ⟨rfl, htree, by rw [htree, hdup]⟩

set_option maxRecDepth 100000 in
set_option maxHeartbeats 4000000 in
theorem claim_C5_duplicate_store_witness :
    (false = false →
      store_object false (store_object true emptyStore 3 [98] 0 0 none) 3 [98] 5 0 none =
        store_object true emptyStore 3 [98] 0 0 none) ∧
    (false = true →
      (store_object false (store_object true emptyStore 3 [98] 0 0 none) 3 [98] 5 0 none).objects =
        (store_object true emptyStore 3 [98] 0 0 none).objects ++
          [⟨calculate_object_hash [98] 3, 3,
            (store_object true emptyStore 3 [98] 0 0 none).objects.length, 0,
            Option.map legible_hash none, 5, [98]⟩] ∧
      (store_object false (store_object true emptyStore 3 [98] 0 0 none) 3 [98] 5 0 none).tree =
        (store_object true emptyStore 3 [98] 0 0 none).tree ∧
      rbFind (store_object false (store_object true emptyStore 3 [98] 0 0 none) 3 [98] 5 0 none).tree
        (calculate_object_hash [98] 3) =
        some ⟨calculate_object_hash [98] 3, 3, 0, 0, none, 0, [98]⟩) :=
  claim_C5_duplicate_store false (store_object true emptyStore 3 [98] 0 0 none) 3 [98] 5 0
    none ⟨calculate_object_hash [98] 3, 3, 0, 0, none, 0, [98]⟩
    (by simp [store_object, emptyStore, rbFind, rbInsert, List.find?])

/-! ## Claim C10 -/

/-- The reachable object stores: built from the empty store by `store_object`
insertions (the pack decoder at line 2079, `load_object` at line 1029, the
delta engine at line 2312, and the manifest loader all store through
`store_object`) and by whole `apply_deltas` passes. -/
inductive StoreReach : Store → Prop
  | empty : StoreReach emptyStore
  | store (repair : Bool) (s : Store) (type : Nat) (buffer : List Nat)
      (pack_offset index_delta : Nat) (rdh : Option (List Nat)) :
      StoreReach s →
      StoreReach (store_object repair s type buffer pack_offset index_delta rdh)
  | deltas (repair : Bool) (s s' : Store) : StoreReach s →
      apply_deltas repair s = some s' → StoreReach s'

/-- C10: in every reachable store, only non-delta objects (kind < 6) are in
the hash-keyed lookup index — `store_object` guards the `RB_INSERT` with
`type < 6` — so a lookup by hash never returns an ofs-delta (6) or
ref-delta (7) object. -/
theorem claim_C10_hash_lookup_never_delta (s : Store) (h : StoreReach s) :
    (∀ o ∈ s.tree, o.type < 6) ∧
    (∀ (hsh : List Nat) (o : ObjectNode), rbFind s.tree hsh = some o →
      o.type ≠ 6 ∧ o.type ≠ 7) := by
  have hmain : ∀ o ∈ s.tree, o.type < 6 := by
    induction h with
    | empty => intro o ho; simp [emptyStore] at ho
    | store r s t b po id rdh hs ih => exact store_object_treeOK r s t b po id rdh ih
    | deltas r s s' hs happ ih =>
      unfold apply_deltas at happ
      exact (applyLoop_spec r s.objects.length s s' ih happ).1
  exact ⟨hmain, fun hsh o hf => by have := hmain o (rbFind_mem hf); omega⟩

theorem claim_C10_hash_lookup_never_delta_witness :
    (∀ o ∈ (store_object false (store_object false emptyStore 6 [0] 4 0 none)
        3 [97] 9 0 none).tree, o.type < 6) ∧
    (∀ (hsh : List Nat) (o : ObjectNode),
      rbFind (store_object false (store_object false emptyStore 6 [0] 4 0 none)
        3 [97] 9 0 none).tree hsh = some o → o.type ≠ 6 ∧ o.type ≠ 7) :=
  claim_C10_hash_lookup_never_delta _
    (StoreReach.store _ _ _ _ _ _ _ (StoreReach.store _ _ _ _ _ _ _ StoreReach.empty))

/-! ## Claim C2 -/

theorem ofs_loop_spec (data : List Nat) (last : Nat) (hlast : last &&& 128 = 0) :
    ∀ (cont : List Nat) (p acc : Nat),
      (∀ b ∈ cont, b &&& 128 ≠ 0) →
      (data.drop p).take (cont.length + 1) = cont ++ [last] →
      ofs_loop data p acc =
        ((cont ++ [last]).foldl
          (fun a b => ((a <<< 7) + (b &&& 127) + 1) % 4294967296) acc,
         p + cont.length + 1)
  | [], p, acc, _, hslice => by
    cases hdp : data.drop p with
    | nil => rw [hdp] at hslice; simp at hslice
    | cons b rest =>
      rw [hdp] at hslice
      simp only [List.length_nil, Nat.zero_add, List.take_succ_cons, List.take_zero,
        List.nil_append] at hslice
      have hb : b = last := by injection hslice
      have hplen : p < data.length := by
        have := congrArg List.length hdp
        simp at this
        omega
      have hgd : data.getD p 0 = b := by
        rw [List.getD_eq_getElem data 0 hplen]
        have := List.drop_eq_getElem_cons hplen
        rw [hdp] at this
        injection this with h1 _
        exact h1.symm
      rw [ofs_loop]
      rw [dif_neg (by rw [hgd, hb]; simp [hlast])]
      rw [hb, List.getD_eq_getElem?_getD] at hgd
      simp [hgd]
  | c :: cont, p, acc, hcont, hslice => by
    cases hdp : data.drop p with
    | nil => rw [hdp] at hslice; simp at hslice
    | cons b rest =>
      rw [hdp] at hslice
      simp only [List.length_cons, List.take_succ_cons, List.cons_append] at hslice
      have hb : b = c := by injection hslice
      have hrest : rest.take (cont.length + 1) = cont ++ [last] := by
        injection hslice
      have hplen : p < data.length := by
        have := congrArg List.length hdp
        simp at this
        omega
      have hdrop : data.drop (p + 1) = rest := by
        have := List.drop_eq_getElem_cons hplen
        rw [hdp] at this
        injection this with _ h2
        exact h2.symm
      have hgd : data.getD p 0 = c := by
        rw [List.getD_eq_getElem data 0 hplen]
        have := List.drop_eq_getElem_cons hplen
        rw [hdp] at this
        injection this with h1 _
        rw [← h1, hb]
      have hc : c &&& 128 ≠ 0 := hcont c (by simp)
      rw [ofs_loop]
      rw [dif_pos ⟨by rw [hgd]; exact hc, hplen⟩]
      rw [ofs_loop_spec data last hlast cont (p + 1)
        (((acc <<< 7) + (data.getD p 0 &&& 127) + 1) % 4294967296)
        (fun b hbm => hcont b (by simp [hbm]))
        (by rw [hdrop]; exact hrest)]
      simp only [List.cons_append, List.foldl_cons, hgd, List.length_cons]
      congr 1
      omega

theorem scanDown_le (objs : List ObjectNode) (target : Nat) :
    ∀ i, scanDown objs target i ≤ i
  | 0 => Nat.le_refl 0
  | i + 1 => by
    rw [scanDown]
    cases objs.get? (i + 1) with
    | none => exact Nat.le_trans (scanDown_le objs target i) (by omega)
    | some o =>
      dsimp only
      split
      · exact Nat.le_refl _
      · exact Nat.le_trans (scanDown_le objs target i) (by omega)

theorem scanDown_spec (objs : List ObjectNode) (target : Nat) :
    ∀ i, i < objs.length →
      (scanDown objs target i = 0 ∧
        ∀ j, 1 ≤ j → j ≤ i → (objs.get? j).map (fun o => o.pack_offset) ≠ some target) ∨
      (1 ≤ scanDown objs target i ∧
        (objs.get? (scanDown objs target i)).map (fun o => o.pack_offset) = some target)
  | 0, _ => Or.inl ⟨rfl, fun j h1 h2 => by omega⟩
  | i + 1, hlen => by
    have hget : ∃ o, objs.get? (i + 1) = some o := by
      rw [List.get?_eq_getElem?]
      exact ⟨objs[i + 1], by simp⟩
    obtain ⟨o, ho⟩ := hget
    rw [scanDown, ho]
    dsimp only
    by_cases hm : o.pack_offset = target
    · rw [if_pos hm]
      exact Or.inr ⟨by omega, by rw [ho]; simp [hm]⟩
    · rw [if_neg hm]
      rcases scanDown_spec objs target i (by omega) with ⟨hz, hnone⟩ | ⟨h1, hmt⟩
      · refine Or.inl ⟨hz, fun j hj1 hj2 => ?_⟩
        rcases Nat.lt_or_ge j (i + 1) with hj | hj
        · exact hnone j hj1 (by omega)
        · have : j = i + 1 := by omega
          subst this
          rw [ho]
          simp [hm]
      · exact Or.inr ⟨h1, hmt⟩

/-- C4 (amended): the ofs-delta header is decoded byte-wise by
`lookup = (lookup * 128 + (byte & 0x7F) + 1) mod 2^32` — the `+ 1` is added at
every byte, including the first — consuming bytes through the first one whose
top bit is clear; the base is then resolved by scanning the object array from
index `count − 1` down to index 1 for `pack_offset = current − decoded + 1`
(in 32-bit arithmetic), and the fatal
`unpack_objects: cannot find ofs-delta base object` exit fires exactly when
that scan returns 0, i.e. when no object at an index ≥ 1 matches: the object
at index 0 is never examined, and with an empty array the loop counter ends at
−1, bypassing the `== 0` check. -/
theorem claim_C4_ofs_delta_resolution :
    (∀ (data : List Nat) (last : Nat) (cont : List Nat) (p : Nat),
      last &&& 128 = 0 → (∀ b ∈ cont, b &&& 128 ≠ 0) →
      (data.drop p).take (cont.length + 1) = cont ++ [last] →
      ofs_delta_offset data p =
        ((cont ++ [last]).foldl
          (fun a b => ((a <<< 7) + (b &&& 127) + 1) % 4294967296) 0,
         p + cont.length + 1)) ∧
    (∀ target : Nat, find_ofs_base [] target = -1) ∧
    (∀ (objs : List ObjectNode) (target : Nat), objs ≠ [] →
      (find_ofs_base objs target = 0 ↔
        ∀ j, 1 ≤ j → j < objs.length →
          (objs.get? j).map (fun o => o.pack_offset) ≠ some target) ∧
      (∀ k : Nat, 1 ≤ k → find_ofs_base objs target = (k : Int) →
        (objs.get? k).map (fun o => o.pack_offset) = some target)) := by
  refine ⟨?_, ?_, ?_⟩
  · intro data last cont p h1 h2 h3
    exact ofs_loop_spec data last h1 cont p 0 h2 h3
  · intro target
    rfl
  · intro objs target hne
    have hlen : 0 < objs.length := List.length_pos.mpr hne
    have hfb : find_ofs_base objs target =
        ((scanDown objs target (objs.length - 1) : Nat) : Int) := by
      unfold find_ofs_base
      rw [if_neg (by omega)]
    constructor
    · constructor
      · intro h0 j hj1 hj2
        rcases scanDown_spec objs target (objs.length - 1) (by omega) with
          ⟨hz, hnone⟩ | ⟨h1, _⟩
        · exact hnone j hj1 (by omega)
        · rw [hfb] at h0
          have hz : scanDown objs target (objs.length - 1) = 0 := by exact_mod_cast h0
          omega
      · intro hnone
        rw [hfb]
        rcases scanDown_spec objs target (objs.length - 1) (by omega) with
          ⟨hz, _⟩ | ⟨h1, hmt⟩
        · rw [hz]; rfl
        · have hle := scanDown_le objs target (objs.length - 1)
          exact absurd hmt (hnone _ h1 (by omega))
    · intro k hk1 hk
      rw [hfb] at hk
      have hkk : scanDown objs target (objs.length - 1) = k := by exact_mod_cast hk
      rcases scanDown_spec objs target (objs.length - 1) (by omega) with
        ⟨hz, _⟩ | ⟨h1, hmt⟩
      · omega
      · rw [← hkk]
        exact hmt

/-- C4 is false as stated: for an ofs-delta at pack offset 20 with header byte
`[8]`, the decoded offset is 9, so the base must have `pack_offset`
`20 − 9 + 1 = 12`; the single earlier object (array index 0) has exactly that
pack offset, yet the search returns 0 — the scan `while (--index_delta > 0)`
never examines index 0 — so the decoder fails fatally even though an earlier
object has that offset. -/
theorem claim_C4_first_object_not_found :
    ofs_delta_offset [8] 0 = (9, 1) ∧
    ofs_base_target 20 9 = 12 ∧
    (([⟨[1], 1, 0, 0, none, 12, []⟩] : List ObjectNode).get? 0).map
      (fun o => o.pack_offset) = some 12 ∧
    find_ofs_base [⟨[1], 1, 0, 0, none, 12, []⟩] 12 = 0 := by
  refine ⟨?_, by decide, by decide, by decide⟩
  simp +decide [ofs_delta_offset, ofs_loop]

theorem claim_C4_ofs_delta_resolution_witness :
    ofs_delta_offset [129, 3] 0 =
      (([129] ++ [3]).foldl
        (fun a b => ((a <<< 7) + (b &&& 127) + 1) % 4294967296) 0,
       0 + ([129] : List Nat).length + 1) ∧
    find_ofs_base [] 5 = -1 ∧
    ((find_ofs_base [⟨[1], 1, 0, 0, none, 12, []⟩, ⟨[2], 1, 1, 0, none, 30, []⟩] 30 = 0 ↔
      ∀ j, 1 ≤ j →
        j < ([⟨[1], 1, 0, 0, none, 12, []⟩,
              ⟨[2], 1, 1, 0, none, 30, []⟩] : List ObjectNode).length →
        (([⟨[1], 1, 0, 0, none, 12, []⟩,
           ⟨[2], 1, 1, 0, none, 30, []⟩] : List ObjectNode).get? j).map
          (fun o => o.pack_offset) ≠ some 30) ∧
     (∀ k : Nat, 1 ≤ k →
        find_ofs_base [⟨[1], 1, 0, 0, none, 12, []⟩, ⟨[2], 1, 1, 0, none, 30, []⟩] 30 =
          (k : Int) →
        (([⟨[1], 1, 0, 0, none, 12, []⟩,
           ⟨[2], 1, 1, 0, none, 30, []⟩] : List ObjectNode).get? k).map
          (fun o => o.pack_offset) = some 30)) :=
  ⟨claim_C4_ofs_delta_resolution.1 [129, 3] 3 [129] 0 (by decide) (by decide) (by decide),
   claim_C4_ofs_delta_resolution.2.1 5,
   claim_C4_ofs_delta_resolution.2.2
     [⟨[1], 1, 0, 0, none, 12, []⟩, ⟨[2], 1, 1, 0, none, 30, []⟩] 30 (by decide)⟩

end Gitup
